import Mathlib

/-!
Verification of the admission and deduplication layer of the agent-brock
repository: the bounded-concurrency task queue (src/task-queue.ts), the
cron job scheduler (src/scheduler.ts), the heartbeat idempotency cache
(src/heartbeat.ts) and the webhook delivery deduplication
(src/webhook-server.ts), shallowly embedded as pure Lean functions.
-/

set_option autoImplicit false

/-- Mirrors the QueuedTask interface: a work item with a string id and a
producer tag. The asynchronous body is not part of the state; its
completion (success or failure) is modelled as a separate event. -/
structure QueuedTask where
  id : String
  source : String
deriving DecidableEq, Repr

/-- State of the TaskQueue class: the pending FIFO list, the keys of the
active map, the fixed ceiling, plus a log of task starts (order in which
drain moved items to active) and of logged body errors, used to observe
scheduling order and failure handling. -/
structure TaskQueue where
  queue : List QueuedTask
  activeTasks : List String
  maxConcurrent : Nat
  startedLog : List String
  errorLog : List String
deriving DecidableEq, Repr

namespace TaskQueue

/-- A freshly constructed TaskQueue with the given ceiling. -/
def init (n : Nat) : TaskQueue :=
  { queue := [], activeTasks := [], maxConcurrent := n,
    startedLog := [], errorLog := [] }

/-- Mirrors isActive: membership in the active map. -/
def isActive (q : TaskQueue) (taskId : String) : Bool :=
  q.activeTasks.contains taskId

/-- Mirrors isPending: some pending item has this id. -/
def isPending (q : TaskQueue) (taskId : String) : Bool :=
  q.queue.any (fun t => t.id == taskId)

/-- Mirrors the pendingCount getter. -/
def pendingCount (q : TaskQueue) : Nat := q.queue.length

/-- Mirrors the activeCount getter. -/
def activeCount (q : TaskQueue) : Nat := q.activeTasks.length

/-- Mirrors the activeTaskIds getter. -/
def activeTaskIds (q : TaskQueue) : List String := q.activeTasks

/-- The body of the drain while loop, recursing on the pending list:
while the active map is below the ceiling and the queue is non-empty,
shift the queue head into the active map and start its body (recorded in
the started log). Returns the final (queue, active, started) triple. -/
def drainAux (maxC : Nat) :
    List QueuedTask → List String → List String →
    List QueuedTask × List String × List String
  | [], active, started => ([], active, started)
  | t :: rest, active, started =>
      if active.length < maxC then
        drainAux maxC rest (active ++ [t.id]) (started ++ [t.id])
      else (t :: rest, active, started)

/-- Mirrors the drain method: run the while loop on the current state.
Body completions are separate events (settle below). -/
def drain (q : TaskQueue) : TaskQueue :=
  let r := drainAux q.maxConcurrent q.queue q.activeTasks q.startedLog
  { q with queue := r.1, activeTasks := r.2.1, startedLog := r.2.2 }

/-- Mirrors enqueue: reject when the id is active or pending, otherwise
push at the tail, then drain, returning true. -/
def enqueue (q : TaskQueue) (t : QueuedTask) : TaskQueue × Bool :=
  if isActive q t.id || isPending q t.id then
    (q, false)
  else
    (drain { q with queue := q.queue ++ [t] }, true)

/-- Mirrors the completion continuation attached to a started body: on
failure the error is logged (catch), then in both cases the finally block
deletes the id from the active map and re-invokes drain. -/
def settle (q : TaskQueue) (taskId : String) (success : Bool) : TaskQueue :=
  let q1 := if success then q
            else { q with errorLog := q.errorLog ++ [taskId] }
  drain { q1 with activeTasks := q1.activeTasks.erase taskId }

end TaskQueue

/-- An observable event on the queue: an enqueue call by a producer, or
the settling (success or failure) of a started body. -/
inductive QueueEvent where
  | enq (t : QueuedTask)
  | settle (taskId : String) (success : Bool)
deriving DecidableEq, Repr

/-- One event's effect on the queue state. -/
def queueStep (q : TaskQueue) : QueueEvent → TaskQueue
  | .enq t => (TaskQueue.enqueue q t).1
  | .settle taskId s => TaskQueue.settle q taskId s

/-- The state after a sequence of events starting from a fresh queue with
ceiling n. -/
def queueRun (n : Nat) (events : List QueueEvent) : TaskQueue :=
  events.foldl queueStep (TaskQueue.init n)

/-- The internal well-formedness of a queue state: distinct active keys,
distinct pending ids, active and pending disjoint by key, and the active
map bounded by the ceiling. -/
def QueueInv (q : TaskQueue) : Prop :=
  q.activeTasks.Nodup ∧
  (q.queue.map QueuedTask.id).Nodup ∧
  (∀ a ∈ q.activeTasks, ∀ t ∈ q.queue, t.id ≠ a) ∧
  q.activeTasks.length ≤ q.maxConcurrent

namespace TaskQueue

theorem drainAux_spec (maxC : Nat) (queue : List QueuedTask) :
    ∀ (active started : List String), ∃ k,
    drainAux maxC queue active started =
      (queue.drop k,
       active ++ (queue.take k).map QueuedTask.id,
       started ++ (queue.take k).map QueuedTask.id) := by
  induction queue with
  | nil => intro active started; exact ⟨0, by simp [drainAux]⟩
  | cons t rest ih =>
      intro active started
      by_cases hlt : active.length < maxC
      · obtain ⟨k, hk⟩ := ih (active ++ [t.id]) (started ++ [t.id])
        refine ⟨k + 1, ?_⟩
        simp only [drainAux, hlt, if_pos, hk, List.drop_succ_cons,
          List.take_succ_cons, List.map_cons]
        simp [List.append_assoc]
      · exact ⟨0, by simp [drainAux, hlt]⟩

theorem drain_spec (q : TaskQueue) : ∃ k,
    q.drain.queue = q.queue.drop k ∧
    q.drain.activeTasks = q.activeTasks ++ (q.queue.take k).map QueuedTask.id ∧
    q.drain.startedLog = q.startedLog ++ (q.queue.take k).map QueuedTask.id ∧
    q.drain.errorLog = q.errorLog ∧
    q.drain.maxConcurrent = q.maxConcurrent := by
  obtain ⟨k, hk⟩ := drainAux_spec q.maxConcurrent q.queue q.activeTasks q.startedLog
  exact ⟨k, by simp [drain, hk]⟩

theorem drain_maxConcurrent (q : TaskQueue) :
    q.drain.maxConcurrent = q.maxConcurrent := rfl

theorem drain_errorLog (q : TaskQueue) :
    q.drain.errorLog = q.errorLog := rfl

theorem drainAux_inv (maxC : Nat) (queue : List QueuedTask) :
    ∀ (active started : List String),
    active.Nodup →
    (queue.map QueuedTask.id).Nodup →
    (∀ a ∈ active, ∀ t ∈ queue, t.id ≠ a) →
    active.length ≤ maxC →
    (drainAux maxC queue active started).2.1.Nodup ∧
    ((drainAux maxC queue active started).1.map QueuedTask.id).Nodup ∧
    (∀ a ∈ (drainAux maxC queue active started).2.1,
       ∀ t ∈ (drainAux maxC queue active started).1, t.id ≠ a) ∧
    (drainAux maxC queue active started).2.1.length ≤ maxC := by
  induction queue with
  | nil =>
      intro active started h1 h2 h3 h4
      exact ⟨h1, by simp [drainAux], by simp [drainAux], h4⟩
  | cons t rest ih =>
      intro active started h1 h2 h3 h4
      simp only [List.map_cons, List.nodup_cons, List.mem_map] at h2
      by_cases hlt : active.length < maxC
      · simp only [drainAux, hlt, if_pos]
        have htid : t.id ∉ active := fun hmem =>
          h3 t.id hmem t (List.mem_cons_self _ _) rfl
        apply ih
        · simp [List.nodup_append, h1, htid]
        · exact h2.2
        · intro a ha u hu
          simp only [List.mem_append, List.mem_singleton] at ha
          rcases ha with ha | ha
          · exact h3 a ha u (List.mem_cons_of_mem _ hu)
          · subst ha
            intro hcontra
            exact h2.1 ⟨u, hu, hcontra⟩
        · simpa using hlt
      · simp only [drainAux, hlt, if_neg, not_false_iff]
        refine ⟨h1, ?_, h3, h4⟩
        simp only [List.map_cons, List.nodup_cons, List.mem_map]
        exact h2

theorem drain_inv (q : TaskQueue) (hq : QueueInv q) : QueueInv q.drain := by
  obtain ⟨h1, h2, h3, h4⟩ := hq
  obtain ⟨g1, g2, g3, g4⟩ :=
    drainAux_inv q.maxConcurrent q.queue q.activeTasks q.startedLog h1 h2 h3 h4
  exact ⟨g1, g2, g3, g4⟩

theorem enqueue_inv (q : TaskQueue) (t : QueuedTask) (hq : QueueInv q) :
    QueueInv (q.enqueue t).1 := by
  unfold TaskQueue.enqueue
  by_cases hdup : (isActive q t.id || isPending q t.id) = true
  · simp only [hdup, if_pos]; exact hq
  · simp only [hdup, Bool.false_eq_true, if_neg, not_false_iff]
    apply drain_inv
    simp only [Bool.or_eq_true, not_or, Bool.not_eq_true] at hdup
    obtain ⟨hact, hpend⟩ := hdup
    have hact' : t.id ∉ q.activeTasks := by
      intro hmem
      have : isActive q t.id = true := by
        simpa [isActive] using hmem
      rw [hact] at this
      exact Bool.false_ne_true this
    have hpend' : ∀ u ∈ q.queue, u.id ≠ t.id := by
      simp only [isPending] at hpend
      intro u hu
      have := List.any_eq_false.1 hpend u hu
      simpa using this
    obtain ⟨hq1, hq2, hq3, hq4⟩ := hq
    refine ⟨hq1, ?_, ?_, hq4⟩
    · simp only [List.map_append, List.map_singleton]
      rw [List.nodup_append]
      refine ⟨hq2, List.nodup_singleton _, ?_⟩
      intro a ha
      simp only [List.mem_map] at ha
      obtain ⟨u, hu, rfl⟩ := ha
      simp only [List.mem_singleton]
      exact hpend' u hu
    · intro a ha u hu
      simp only [List.mem_append, List.mem_singleton] at hu
      rcases hu with hu | hu
      · exact hq3 a ha u hu
      · subst hu
        intro hcontra
        rw [hcontra] at hact'
        exact hact' ha

theorem settle_inv (q : TaskQueue) (taskId : String) (s : Bool)
    (hq : QueueInv q) : QueueInv (q.settle taskId s) := by
  obtain ⟨hq1, hq2, hq3, hq4⟩ := hq
  unfold TaskQueue.settle
  cases s <;>
    · simp only [Bool.false_eq_true, if_neg, if_pos, not_false_iff]
      apply drain_inv
      refine ⟨hq1.erase _, hq2, ?_, ?_⟩
      · intro a ha u hu
        exact hq3 a (List.mem_of_mem_erase ha) u hu
      · exact le_trans (List.erase_sublist _ _).length_le hq4

end TaskQueue

theorem queueStep_inv (q : TaskQueue) (e : QueueEvent) (hq : QueueInv q) :
    QueueInv (queueStep q e) := by
  cases e with
  | enq t => exact TaskQueue.enqueue_inv q t hq
  | settle taskId s => exact TaskQueue.settle_inv q taskId s hq

theorem queueStep_maxConcurrent (q : TaskQueue) (e : QueueEvent) :
    (queueStep q e).maxConcurrent = q.maxConcurrent := by
  cases e with
  | enq t =>
      simp only [queueStep]
      unfold TaskQueue.enqueue
      by_cases hdup : (TaskQueue.isActive q t.id || TaskQueue.isPending q t.id) = true
      · simp [hdup]
      · simp [hdup, TaskQueue.drain_maxConcurrent]
  | settle taskId s =>
      simp only [queueStep]
      unfold TaskQueue.settle
      cases s <;> rfl

theorem queueRun_inv (n : Nat) (events : List QueueEvent) :
    QueueInv (queueRun n events) ∧ (queueRun n events).maxConcurrent = n := by
  suffices h : ∀ (q : TaskQueue), QueueInv q →
      QueueInv (events.foldl queueStep q) ∧
      (events.foldl queueStep q).maxConcurrent = q.maxConcurrent by
    have := h (TaskQueue.init n) (by simp [QueueInv, TaskQueue.init])
    exact ⟨this.1, this.2⟩
  induction events with
  | nil => intro q hq; exact ⟨hq, rfl⟩
  | cons e rest ih =>
      intro q hq
      obtain ⟨ha, hb⟩ := ih (queueStep q e) (queueStep_inv q e hq)
      exact ⟨ha, hb.trans (queueStep_maxConcurrent q e)⟩

/-- Sample tasks and event sequences used to instantiate the claims. -/
def taskA : QueuedTask := { id := "A", source := "cron" }

def taskB : QueuedTask := { id := "B", source := "github" }

def taskC : QueuedTask := { id := "C", source := "heartbeat" }

def fifoEvents : List QueueEvent :=
  [QueueEvent.enq taskA, QueueEvent.enq taskB, QueueEvent.enq taskC,
   QueueEvent.settle "A" true, QueueEvent.settle "B" true,
   QueueEvent.settle "C" true]

def sampleEvents : List QueueEvent :=
  [QueueEvent.enq taskA, QueueEvent.enq taskB, QueueEvent.enq taskC,
   QueueEvent.settle "A" true, QueueEvent.enq taskA]

/-- C1: for every sequence of enqueue calls and body completions on a
TaskQueue constructed with a positive ceiling, at every observable point
the set of active keys and the set of pending keys are disjoint, and the
number of active tasks never exceeds the ceiling. -/
theorem claim_C1_queue_invariant (n : Nat) (hn : 0 < n)
    (events : List QueueEvent) :
    (∀ a ∈ (queueRun n events).activeTaskIds,
       ∀ t ∈ (queueRun n events).queue, t.id ≠ a) ∧
    (queueRun n events).activeCount ≤ n := by
  obtain ⟨⟨h1, h2, h3, h4⟩, hmax⟩ := queueRun_inv n events
  refine ⟨h3, ?_⟩
  simpa [TaskQueue.activeCount, hmax] using h4

theorem claim_C1_queue_invariant_witness :
    (∀ a ∈ (queueRun 2 sampleEvents).activeTaskIds,
       ∀ t ∈ (queueRun 2 sampleEvents).queue, t.id ≠ a) ∧
    (queueRun 2 sampleEvents).activeCount ≤ 2 :=
  claim_C1_queue_invariant 2 (by decide) sampleEvents

/-- C2: for every key already present in the pending or active set,
enqueue with that key returns false and leaves the queue state unchanged:
pendingCount, activeCount and the contents of both sets are exactly as
before the call. -/
theorem claim_C2_duplicate_enqueue_noop (q : TaskQueue) (t : QueuedTask)
    (h : TaskQueue.isActive q t.id = true ∨ TaskQueue.isPending q t.id = true) :
    TaskQueue.enqueue q t = (q, false) ∧
    (TaskQueue.enqueue q t).1.pendingCount = q.pendingCount ∧
    (TaskQueue.enqueue q t).1.activeCount = q.activeCount ∧
    (TaskQueue.enqueue q t).1.queue = q.queue ∧
    (TaskQueue.enqueue q t).1.activeTaskIds = q.activeTaskIds := by
  have he : TaskQueue.enqueue q t = (q, false) := by
    unfold TaskQueue.enqueue
    rcases h with h | h <;> simp [h]
  exact ⟨he, by rw [he], by rw [he], by rw [he], by rw [he]⟩

def dupQueue : TaskQueue :=
  { queue := [taskB], activeTasks := ["A"], maxConcurrent := 1,
    startedLog := ["A"], errorLog := [] }

theorem claim_C2_duplicate_enqueue_noop_witness :
    TaskQueue.enqueue dupQueue taskA = (dupQueue, false) ∧
    (TaskQueue.enqueue dupQueue taskA).1.pendingCount = dupQueue.pendingCount ∧
    (TaskQueue.enqueue dupQueue taskA).1.activeCount = dupQueue.activeCount ∧
    (TaskQueue.enqueue dupQueue taskA).1.queue = dupQueue.queue ∧
    (TaskQueue.enqueue dupQueue taskA).1.activeTaskIds = dupQueue.activeTaskIds :=
  claim_C2_duplicate_enqueue_noop dupQueue taskA (Or.inl (by decide))

/-- C3: for every item whose non-empty key is in neither the pending nor
the active set, enqueue appends the item at the tail of the pending list,
returns true, and then drains (admitting a FIFO prefix of the extended
pending list into the active set); and with ceiling 1 and no other
activity, items A, B, C enqueued in that order begin executing in order
A, B, C. -/
theorem claim_C3_fifo_admission (q : TaskQueue) (t : QueuedTask)
    (hne : t.id ≠ "") (hact : TaskQueue.isActive q t.id = false)
    (hpend : TaskQueue.isPending q t.id = false) :
    (TaskQueue.enqueue q t).2 = true ∧
    (∃ k, (TaskQueue.enqueue q t).1.queue = (q.queue ++ [t]).drop k ∧
       (TaskQueue.enqueue q t).1.activeTaskIds =
         q.activeTaskIds ++ ((q.queue ++ [t]).take k).map QueuedTask.id ∧
       (TaskQueue.enqueue q t).1.startedLog =
         q.startedLog ++ ((q.queue ++ [t]).take k).map QueuedTask.id) ∧
    (queueRun 1 fifoEvents).startedLog = ["A", "B", "C"] := by
  have hcond : (TaskQueue.isActive q t.id || TaskQueue.isPending q t.id) = false := by
    simp [hact, hpend]
  refine ⟨?_, ?_, by decide⟩
  · unfold TaskQueue.enqueue
    simp [hcond]
  · unfold TaskQueue.enqueue
    simp only [hcond, Bool.false_eq_true, if_neg, not_false_iff]
    obtain ⟨k, h1, h2, h3, h4, h5⟩ :=
      TaskQueue.drain_spec { q with queue := q.queue ++ [t] }
    exact ⟨k, h1, h2, h3⟩

theorem claim_C3_fifo_admission_witness :
    (TaskQueue.enqueue (TaskQueue.init 1) taskA).2 = true ∧
    (∃ k, (TaskQueue.enqueue (TaskQueue.init 1) taskA).1.queue =
            ((TaskQueue.init 1).queue ++ [taskA]).drop k ∧
       (TaskQueue.enqueue (TaskQueue.init 1) taskA).1.activeTaskIds =
         (TaskQueue.init 1).activeTaskIds ++
           (((TaskQueue.init 1).queue ++ [taskA]).take k).map QueuedTask.id ∧
       (TaskQueue.enqueue (TaskQueue.init 1) taskA).1.startedLog =
         (TaskQueue.init 1).startedLog ++
           (((TaskQueue.init 1).queue ++ [taskA]).take k).map QueuedTask.id) ∧
    (queueRun 1 fifoEvents).startedLog = ["A", "B", "C"] :=
  claim_C3_fifo_admission (TaskQueue.init 1) taskA (by decide) (by decide) (by decide)

/-- C4: for every active work item, success and failure of its body run
the same completion path: the key is removed from the active set and
drain is re-invoked (so queue, active set and start order are identical
for both outcomes); afterwards the key is neither active nor pending
(never retried), a failing body only appends to the error log (never
propagated to the producer), and with ceiling 1 a pending item B starts
as soon as A settles with failure, with no external call. -/
theorem claim_C4_completion_path (q : TaskQueue) (taskId : String)
    (hnodup : q.activeTasks.Nodup)
    (hnp : TaskQueue.isPending q taskId = false) :
    (∀ s : Bool,
       (TaskQueue.settle q taskId s).queue = (TaskQueue.settle q taskId true).queue ∧
       (TaskQueue.settle q taskId s).activeTaskIds =
         (TaskQueue.settle q taskId true).activeTaskIds ∧
       (TaskQueue.settle q taskId s).startedLog =
         (TaskQueue.settle q taskId true).startedLog) ∧
    (∀ s : Bool,
       TaskQueue.isActive (TaskQueue.settle q taskId s) taskId = false ∧
       TaskQueue.isPending (TaskQueue.settle q taskId s) taskId = false) ∧
    (TaskQueue.settle q taskId false).errorLog = q.errorLog ++ [taskId] ∧
    (queueRun 1 [QueueEvent.enq taskA, QueueEvent.enq taskB,
       QueueEvent.settle "A" false]).startedLog = ["A", "B"] := by
  have hq : ∀ u ∈ q.queue, u.id ≠ taskId := by
    simp only [TaskQueue.isPending] at hnp
    intro u hu
    have := List.any_eq_false.1 hnp u hu
    simpa using this
  refine ⟨?_, ?_, ?_, by decide⟩
  · intro s
    cases s <;> exact ⟨rfl, rfl, rfl⟩
  · intro s
    have key : ∀ (q2 : TaskQueue), q2.queue = q.queue →
        q2.activeTasks = q.activeTasks.erase taskId →
        TaskQueue.isActive q2.drain taskId = false ∧
        TaskQueue.isPending q2.drain taskId = false := by
      intro q2 hqueue hactive
      obtain ⟨k, h1, h2, h3, h4, h5⟩ := TaskQueue.drain_spec q2
      constructor
      · rw [TaskQueue.isActive, h2, hactive, hqueue]
        simp only [List.contains_eq_any_beq, List.any_eq_false]
        intro a ha
        simp only [List.mem_append] at ha
        rcases ha with ha | ha
        · have : taskId ≠ a := fun hcontra => by
            subst hcontra
            exact (hnodup.not_mem_erase) ha
          simpa [beq_iff_eq] using this
        · simp only [List.mem_map] at ha
          obtain ⟨u, hu, rfl⟩ := ha
          have : taskId ≠ u.id := (hq u (List.take_subset _ _ hu)).symm
          simpa [beq_iff_eq] using this
      · rw [TaskQueue.isPending, h1, hqueue]
        simp only [List.any_eq_false]
        intro u hu
        have : u.id ≠ taskId := hq u (List.drop_subset _ _ hu)
        simpa using this
    cases s
    · exact key _ rfl rfl
    · exact key _ rfl rfl
  · simp [TaskQueue.settle, TaskQueue.drain]

def settledQueue : TaskQueue :=
  { queue := [], activeTasks := ["A"], maxConcurrent := 1,
    startedLog := ["A"], errorLog := [] }

theorem claim_C4_completion_path_witness :
    (∀ s : Bool,
       (TaskQueue.settle settledQueue "A" s).queue =
         (TaskQueue.settle settledQueue "A" true).queue ∧
       (TaskQueue.settle settledQueue "A" s).activeTaskIds =
         (TaskQueue.settle settledQueue "A" true).activeTaskIds ∧
       (TaskQueue.settle settledQueue "A" s).startedLog =
         (TaskQueue.settle settledQueue "A" true).startedLog) ∧
    (∀ s : Bool,
       TaskQueue.isActive (TaskQueue.settle settledQueue "A" s) "A" = false ∧
       TaskQueue.isPending (TaskQueue.settle settledQueue "A" s) "A" = false) ∧
    (TaskQueue.settle settledQueue "A" false).errorLog =
      settledQueue.errorLog ++ ["A"] ∧
    (queueRun 1 [QueueEvent.enq taskA, QueueEvent.enq taskB,
       QueueEvent.settle "A" false]).startedLog = ["A", "B"] :=
  claim_C4_completion_path settledQueue "A" (by decide) (by decide)

/-! Scheduler (src/scheduler.ts): job loading, validation, cron timer
management and job firing. The node-cron validator is an external
dependency and is abstracted as a Boolean predicate on cron strings. -/

/-- A raw entry of the parsed jobs.json array; every field may be absent. -/
structure RawJob where
  name : Option String
  schedule : Option String
  prompt : Option String
  slackChannel : Option String
  workingDirectory : Option String
deriving DecidableEq, Repr

/-- Mirrors the JobDefinition interface. -/
structure JobDefinition where
  name : String
  schedule : String
  prompt : String
  slackChannel : Option String
  workingDirectory : Option String
deriving DecidableEq, Repr

/-- JS falsiness of an optional string field: absent or empty. -/
def strFalsy : Option String → Bool
  | none => true
  | some s => s == ""

/-- The per-entry validation performed inside the loadJobs loop: an entry
missing name, schedule or prompt, or with an invalid cron expression,
yields none (skip with warning); otherwise the JobDefinition is built. -/
def validateEntry (cronValid : String → Bool) (e : RawJob) : Option JobDefinition :=
  if strFalsy e.name || strFalsy e.schedule || strFalsy e.prompt then none
  else if !cronValid (e.schedule.getD "") then none
  else some { name := e.name.getD "", schedule := e.schedule.getD "",
              prompt := e.prompt.getD "", slackChannel := e.slackChannel,
              workingDirectory := e.workingDirectory }

/-- Mirrors the for-loop of loadJobs: entries are validated one by one,
invalid ones skipped (continue), valid ones pushed in order. -/
def validJobs (cronValid : String → Bool) : List RawJob → List JobDefinition
  | [] => []
  | e :: rest =>
      if strFalsy e.name || strFalsy e.schedule || strFalsy e.prompt then
        validJobs cronValid rest
      else if !cronValid (e.schedule.getD "") then
        validJobs cronValid rest
      else
        { name := e.name.getD "", schedule := e.schedule.getD "",
          prompt := e.prompt.getD "", slackChannel := e.slackChannel,
          workingDirectory := e.workingDirectory } :: validJobs cronValid rest

/-- The possible outcomes of reading and parsing the jobs.json source:
file absent, JSON.parse throwing, a parsed value that is not an array, or
a parsed array of raw entries. -/
inductive JobSource where
  | missing
  | unparseable
  | notArray
  | array (entries : List RawJob)
deriving DecidableEq, Repr

/-- Scheduler state: the loaded job definitions and the installed cron
timers, each timer identified by the job it fires. -/
structure SchedulerState where
  jobs : List JobDefinition
  cronTasks : List JobDefinition
deriving DecidableEq, Repr

/-- Mirrors loadJobs: a missing file, an unparseable file (the thrown
error is caught and logged) or a non-array value leaves the state as it
was; an array replaces the jobs with its valid entries and then
scheduleCronTasks appends one timer per loaded job. -/
def loadJobs (cronValid : String → Bool) (s : SchedulerState)
    (src : JobSource) : SchedulerState :=
  match src with
  | .missing => s
  | .unparseable => s
  | .notArray => s
  | .array es =>
      let js := validJobs cronValid es
      { jobs := js, cronTasks := s.cronTasks ++ js }

/-- Mirrors stopCronTasks: every installed timer is stopped and the list
cleared. -/
def stopCronTasks (s : SchedulerState) : SchedulerState :=
  { s with cronTasks := [] }

/-- Mirrors the fs.watchFile callback installed by start: on a source
change, stop the cron tasks, then reload. -/
def reloadOnChange (cronValid : String → Bool) (s : SchedulerState)
    (src : JobSource) : SchedulerState :=
  loadJobs cronValid (stopCronTasks s) src

/-- A timer lifecycle action, used to record the order in which the
reload path stops old timers and starts new ones. -/
inductive TimerEvent where
  | stopTimer (j : JobDefinition)
  | startTimer (j : JobDefinition)
deriving DecidableEq, Repr

/-- Whether a timer event is a stop. -/
def TimerEvent.isStop : TimerEvent → Bool
  | .stopTimer _ => true
  | .startTimer _ => false

/-- Whether a timer event is a start. -/
def TimerEvent.isStart : TimerEvent → Bool
  | .stopTimer _ => false
  | .startTimer _ => true

/-- The timers scheduled by a load from the given source. -/
def newTimers (cronValid : String → Bool) (src : JobSource) : List JobDefinition :=
  match src with
  | .array es => validJobs cronValid es
  | _ => []

/-- The sequence of timer actions performed by the reload callback:
stopCronTasks stops every installed timer (in list order), then loadJobs
starts one timer per newly loaded job. -/
def reloadTrace (cronValid : String → Bool) (s : SchedulerState)
    (src : JobSource) : List TimerEvent :=
  s.cronTasks.map TimerEvent.stopTimer ++
    (newTimers cronValid src).map TimerEvent.startTimer

def oldJob : JobDefinition :=
  { name := "X", schedule := "0 9 1 1 1", prompt := "do X",
    slackChannel := none, workingDirectory := none }

/-- C5 counterexample: with one job loaded and its timer installed, a
change-triggered reload whose source fails to parse leaves NO timers
running, because the watch callback stops every timer before loadJobs
runs; the claim that the previously installed timers keep running is
false on the code. -/
theorem claim_C5_counterexample :
    (reloadOnChange (fun _ => true)
        { jobs := [oldJob], cronTasks := [oldJob] } JobSource.unparseable).cronTasks ≠
      ({ jobs := [oldJob], cronTasks := [oldJob] } : SchedulerState).cronTasks ∧
    (reloadOnChange (fun _ => true)
        { jobs := [oldJob], cronTasks := [oldJob] } JobSource.unparseable).cronTasks = [] := by
  constructor
  · decide
  · rfl

/-- C5 (amended): when a load or parse failure of the job-list source
occurs during a change-triggered reload, the scheduler does not crash and
keeps its last-known-good job definitions, but the timers from the
previous load do NOT keep running: they were all stopped before the load
was attempted and none are reinstalled, so the scheduler runs no timers
until a later successful reload. -/
theorem claim_C5_reload_failure (cronValid : String → Bool)
    (s : SchedulerState) (src : JobSource)
    (hfail : src = JobSource.missing ∨ src = JobSource.unparseable ∨
             src = JobSource.notArray) :
    (reloadOnChange cronValid s src).jobs = s.jobs ∧
    (reloadOnChange cronValid s src).cronTasks = [] := by
  rcases hfail with rfl | rfl | rfl <;> exact ⟨rfl, rfl⟩

theorem claim_C5_reload_failure_witness :
    (reloadOnChange (fun _ => true)
        { jobs := [oldJob], cronTasks := [oldJob] } JobSource.unparseable).jobs =
      ({ jobs := [oldJob], cronTasks := [oldJob] } : SchedulerState).jobs ∧
    (reloadOnChange (fun _ => true)
        { jobs := [oldJob], cronTasks := [oldJob] } JobSource.unparseable).cronTasks = [] :=
  claim_C5_reload_failure (fun _ => true)
    { jobs := [oldJob], cronTasks := [oldJob] } JobSource.unparseable
    (Or.inr (Or.inl rfl))

/-- C6: on a reload, every timer of the previous job set is stopped
before any timer of the new set is started (in the action trace all stop
events precede all start events), and the surviving timer list is exactly
the valid jobs of the new source: a job dropped by the new list has no
timer left, and each surviving job has exactly as many timers as it has
entries in the new list (no double-fire). -/
theorem claim_C6_reload_swap (cronValid : String → Bool)
    (s : SchedulerState) (es : List RawJob)
    (i j : Nat)
    (hi : i < (reloadTrace cronValid s (JobSource.array es)).length)
    (hj : j < (reloadTrace cronValid s (JobSource.array es)).length)
    (hstop : ((reloadTrace cronValid s (JobSource.array es)).get ⟨i, hi⟩).isStop = true)
    (hstart : ((reloadTrace cronValid s (JobSource.array es)).get ⟨j, hj⟩).isStart = true) :
    i < j ∧
    (reloadOnChange cronValid s (JobSource.array es)).cronTasks =
      validJobs cronValid es ∧
    (∀ jd : JobDefinition, jd ∉ validJobs cronValid es →
       jd ∉ (reloadOnChange cronValid s (JobSource.array es)).cronTasks) ∧
    (∀ jd : JobDefinition,
       (reloadOnChange cronValid s (JobSource.array es)).cronTasks.count jd =
         (validJobs cronValid es).count jd) := by
  have hre : (reloadOnChange cronValid s (JobSource.array es)).cronTasks =
      validJobs cronValid es := by
    simp [reloadOnChange, loadJobs, stopCronTasks]
  refine ⟨?_, hre, fun jd hjd => by rw [hre]; exact hjd, fun jd => by rw [hre]⟩
  have htr : reloadTrace cronValid s (JobSource.array es) =
      s.cronTasks.map TimerEvent.stopTimer ++
        (validJobs cronValid es).map TimerEvent.startTimer := rfl
  simp only [List.get_eq_getElem, htr] at hstop hstart
  have hAlen : i < (s.cronTasks.map TimerEvent.stopTimer).length := by
    by_contra hge
    push_neg at hge
    rw [List.getElem_append_right hge, List.getElem_map] at hstop
    simp [TimerEvent.isStop] at hstop
  have hBlen : (s.cronTasks.map TimerEvent.stopTimer).length ≤ j := by
    by_contra hlt
    push_neg at hlt
    rw [List.getElem_append_left hlt, List.getElem_map] at hstart
    simp [TimerEvent.isStart] at hstart
  omega

def rawY : RawJob :=
  { name := some "Y", schedule := some "0 9 1 1 1", prompt := some "do Y",
    slackChannel := none, workingDirectory := none }

theorem claim_C6_reload_swap_witness :
    (0 : Nat) < 1 ∧
    (reloadOnChange (fun _ => true)
        { jobs := [oldJob], cronTasks := [oldJob] } (JobSource.array [rawY])).cronTasks =
      validJobs (fun _ => true) [rawY] ∧
    (∀ jd : JobDefinition, jd ∉ validJobs (fun _ => true) [rawY] →
       jd ∉ (reloadOnChange (fun _ => true)
              { jobs := [oldJob], cronTasks := [oldJob] }
              (JobSource.array [rawY])).cronTasks) ∧
    (∀ jd : JobDefinition,
       (reloadOnChange (fun _ => true)
           { jobs := [oldJob], cronTasks := [oldJob] }
           (JobSource.array [rawY])).cronTasks.count jd =
         (validJobs (fun _ => true) [rawY]).count jd) :=
  claim_C6_reload_swap (fun _ => true)
    { jobs := [oldJob], cronTasks := [oldJob] } [rawY] 0 1
    (by decide) (by decide) (by decide) (by decide)

theorem validJobs_eq_filterMap (cronValid : String → Bool) (l : List RawJob) :
    validJobs cronValid l = l.filterMap (validateEntry cronValid) := by
  induction l with
  | nil => rfl
  | cons e rest ih =>
      by_cases h1 : (strFalsy e.name || strFalsy e.schedule || strFalsy e.prompt) = true
      · simp [validJobs, validateEntry, h1, ih]
      · by_cases h2 : (!cronValid (e.schedule.getD "")) = true
        · simp [validJobs, validateEntry, h1, h2, ih]
        · simp [validJobs, validateEntry, h1, h2, ih]

/-- C8: every jobs.json entry is validated independently: the loaded job
list is the entrywise filterMap of the per-entry validation, inserting an
invalid entry (missing name, schedule or prompt, or invalid cron
expression) anywhere in the list does not change which sibling jobs load,
and every valid entry of the list is loaded. -/
theorem claim_C8_entry_independence (cronValid : String → Bool)
    (entries xs ys : List RawJob) (bad : RawJob)
    (hbad : validateEntry cronValid bad = none) :
    validJobs cronValid entries = entries.filterMap (validateEntry cronValid) ∧
    validJobs cronValid (xs ++ bad :: ys) = validJobs cronValid (xs ++ ys) ∧
    (∀ e ∈ entries, ∀ jd, validateEntry cronValid e = some jd →
       jd ∈ validJobs cronValid entries) := by
  refine ⟨validJobs_eq_filterMap _ _, ?_, ?_⟩
  · rw [validJobs_eq_filterMap, validJobs_eq_filterMap]
    simp [List.filterMap_append, List.filterMap_cons, hbad]
  · intro e he jd hjd
    rw [validJobs_eq_filterMap]
    exact List.mem_filterMap.2 ⟨e, he, hjd⟩

def rawBad : RawJob :=
  { name := none, schedule := some "0 9 1 1 1", prompt := some "p",
    slackChannel := none, workingDirectory := none }

theorem claim_C8_entry_independence_witness :
    validJobs (fun _ => true) [rawY] =
      [rawY].filterMap (validateEntry (fun _ => true)) ∧
    validJobs (fun _ => true) ([rawY] ++ rawBad :: []) =
      validJobs (fun _ => true) ([rawY] ++ []) ∧
    (∀ e ∈ [rawY], ∀ jd, validateEntry (fun _ => true) e = some jd →
       jd ∈ validJobs (fun _ => true) [rawY]) :=
  claim_C8_entry_independence (fun _ => true) [rawY] [rawY] [] rawBad (by decide)

/-! Decimal representation helpers: Nat.repr (used by the template
literal building the scheduler task id) is injective. -/

/-- The decimal digit list of a natural number, most significant first. -/
def decDigits (n : Nat) : List Char :=
  if h : n < 10 then [Nat.digitChar n]
  else decDigits (n / 10) ++ [Nat.digitChar (n % 10)]
termination_by n
decreasing_by exact Nat.div_lt_self (by omega) (by omega)

/-- The numeric value of a decimal digit character. -/
def decDigitVal (c : Char) : Nat := c.toNat - '0'.toNat

/-- The value denoted by a decimal digit string. -/
def decValue (l : List Char) : Nat :=
  l.foldl (fun acc c => acc * 10 + decDigitVal c) 0

theorem decDigitVal_digitChar (d : Nat) (h : d < 10) :
    decDigitVal (Nat.digitChar d) = d := by
  interval_cases d <;> rfl

theorem decValue_append_digit (l : List Char) (c : Char) :
    decValue (l ++ [c]) = decValue l * 10 + decDigitVal c := by
  simp [decValue, List.foldl_append]

theorem decValue_decDigits (n : Nat) : decValue (decDigits n) = n := by
  induction n using Nat.strong_induction_on with
  | _ n ih =>
      rw [decDigits]
      by_cases h : n < 10
      · simp only [h, dif_pos]
        simp [decValue, decDigitVal_digitChar n h]
      · simp only [h, dif_neg, not_false_iff]
        rw [decValue_append_digit,
          ih (n / 10) (Nat.div_lt_self (by omega) (by omega)),
          decDigitVal_digitChar (n % 10) (Nat.mod_lt _ (by omega))]
        omega

theorem toDigitsCore_eq_decDigits (fuel : Nat) :
    ∀ (n : Nat) (ds : List Char), n < fuel →
    Nat.toDigitsCore 10 fuel n ds = decDigits n ++ ds := by
  induction fuel with
  | zero => intro n ds h; exact absurd h (Nat.not_lt_zero n)
  | succ f ih =>
      intro n ds h
      by_cases h0 : n / 10 = 0
      · have hn : n < 10 := by omega
        simp only [Nat.toDigitsCore, h0, if_pos]
        rw [decDigits]
        simp [hn, Nat.mod_eq_of_lt hn]
      · have hn : ¬ n < 10 := by
          intro hlt
          exact h0 (Nat.div_eq_of_lt hlt)
        simp only [Nat.toDigitsCore, h0, if_neg, not_false_iff]
        rw [ih (n / 10) _ (by omega)]
        conv_rhs => rw [decDigits]
        simp [hn, List.append_assoc]

theorem repr_eq_decDigits (n : Nat) : Nat.repr n = (decDigits n).asString := by
  rw [Nat.repr, Nat.toDigits,
    toDigitsCore_eq_decDigits (n + 1) n [] (Nat.lt_succ_self n), List.append_nil]

theorem natRepr_injective (m n : Nat) (h : Nat.repr m = Nat.repr n) : m = n := by
  rw [repr_eq_decDigits, repr_eq_decDigits] at h
  have hd : decDigits m = decDigits n := by
    have := congrArg String.data h
    simpa [List.asString] using this
  calc m = decValue (decDigits m) := (decValue_decDigits m).symm
    _ = decValue (decDigits n) := by rw [hd]
    _ = n := decValue_decDigits n

/-- JS || on strings: the left operand unless it is empty (falsy). -/
def jsOrElse (a b : String) : String := if a == "" then b else a

/-- Mirrors the template literal building the scheduler task id:
scheduler-(job name)-(fire time as decimal). -/
def schedTaskId (name : String) (now : Nat) : String :=
  "scheduler-" ++ name ++ "-" ++ Nat.repr now

/-- Mirrors Scheduler.enqueueJob at a cron firing at time now: resolve
the destination channel as job.slackChannel || configured fallback || the
empty string; with no resolvable channel the firing is dropped with a
warning (queue untouched); otherwise a fresh work item keyed by job name
plus fire time is offered to the task queue. The Boolean records whether
a work item was offered. -/
def enqueueJob (job : JobDefinition) (now : Nat) (fallbackChannel : String)
    (q : TaskQueue) : TaskQueue × Bool :=
  let taskId := schedTaskId job.name now
  let channel := jsOrElse (jsOrElse (job.slackChannel.getD "") fallbackChannel) ""
  if channel == "" then (q, false)
  else ((TaskQueue.enqueue q { id := taskId, source := "scheduler" }).1, true)

theorem strFalsy_getD_eq (o : Option String) (h : strFalsy o = true) :
    o.getD "" = "" := by
  cases o with
  | none => rfl
  | some s => simpa [strFalsy] using h

theorem strFalsy_getD_ne (o : Option String) (h : strFalsy o = false) :
    o.getD "" ≠ "" := by
  cases o with
  | none => simp [strFalsy] at h
  | some s => simpa [strFalsy] using h

/-- C9: on a cron firing of a job with no resolvable destination channel
(job has no channel and no fallback is configured), the firing is dropped
and no work item is offered to the task queue; when a channel resolves,
the offered work item is keyed by the job name plus the fire time, and
for a fixed job this key is injective in the fire time: each firing gets
a key unique to it. -/
theorem claim_C9_cron_fire (job : JobDefinition) (now : Nat)
    (fallbackChannel : String) (q : TaskQueue)
    (hnochan : strFalsy job.slackChannel = true)
    (hnofb : fallbackChannel = "") :
    enqueueJob job now fallbackChannel q = (q, false) ∧
    (∀ fb : String, (strFalsy job.slackChannel = false ∨ fb ≠ "") →
       enqueueJob job now fb q =
         ((TaskQueue.enqueue q
             { id := schedTaskId job.name now, source := "scheduler" }).1, true)) ∧
    (∀ t1 t2 : Nat, schedTaskId job.name t1 = schedTaskId job.name t2 →
       t1 = t2) := by
  refine ⟨?_, ?_, ?_⟩
  · subst hnofb
    unfold enqueueJob
    simp [jsOrElse, strFalsy_getD_eq job.slackChannel hnochan]
  · intro fb hfb
    unfold enqueueJob
    by_cases ha : job.slackChannel.getD "" = ""
    · have hfb' : fb ≠ "" := by
        rcases hfb with hfb | hfb
        · exact absurd ha (strFalsy_getD_ne job.slackChannel hfb)
        · exact hfb
      simp [jsOrElse, ha, hfb']
    · simp [jsOrElse, ha]
  · intro t1 t2 h
    apply natRepr_injective
    apply String.ext
    have hd := congrArg String.data h
    simp only [schedTaskId, String.data_append, List.append_assoc] at hd
    exact List.append_cancel_left (List.append_cancel_left
      (List.append_cancel_left hd))

def cronJobY : JobDefinition :=
  { name := "Y", schedule := "0 9 1 1 1", prompt := "do Y",
    slackChannel := none, workingDirectory := none }

theorem claim_C9_cron_fire_witness :
    enqueueJob cronJobY 5 "" (TaskQueue.init 2) = (TaskQueue.init 2, false) ∧
    (∀ fb : String, (strFalsy cronJobY.slackChannel = false ∨ fb ≠ "") →
       enqueueJob cronJobY 5 fb (TaskQueue.init 2) =
         ((TaskQueue.enqueue (TaskQueue.init 2)
             { id := schedTaskId cronJobY.name 5, source := "scheduler" }).1, true)) ∧
    (∀ t1 t2 : Nat, schedTaskId cronJobY.name t1 = schedTaskId cronJobY.name t2 →
       t1 = t2) :=
  claim_C9_cron_fire cronJobY 5 "" (TaskQueue.init 2) (by decide) rfl

/-! Heartbeat idempotency cache (src/heartbeat.ts): the processedItems
map, markProcessed, isProcessed and the TTL sweep run at each tick. -/

/-- The heartbeat item TTL: one hour in milliseconds. -/
def itemTtlMs : Nat := 60 * 60 * 1000

/-- The processed-items map: key to first-seen timestamp in ms, in
insertion order. -/
structure HeartbeatCache where
  processedItems : List (String × Nat)
deriving DecidableEq, Repr

/-- JS Map.set: update the value in place if the key exists, otherwise
append the new binding. -/
def mapSet (l : List (String × Nat)) (k : String) (v : Nat) :
    List (String × Nat) :=
  if l.any (fun e => e.1 == k) then
    l.map (fun e => if e.1 == k then (k, v) else e)
  else l ++ [(k, v)]

/-- Mirrors isProcessed: pure membership, no time check. -/
def isProcessed (c : HeartbeatCache) (key : String) : Bool :=
  c.processedItems.any (fun e => e.1 == key)

/-- Mirrors markProcessed: record the current time as first seen. -/
def markProcessed (c : HeartbeatCache) (key : String) (now : Nat) :
    HeartbeatCache :=
  { processedItems := mapSet c.processedItems key now }

/-- Mirrors cleanupProcessedItems, run at each heartbeat tick: delete
every entry strictly older than the TTL. -/
def cleanupProcessedItems (c : HeartbeatCache) (now : Nat) : HeartbeatCache :=
  { processedItems :=
      c.processedItems.filter (fun e => !(now - e.2 > itemTtlMs)) }

/-- A sequence of sweeps at the given times. -/
def applySweeps (c : HeartbeatCache) (sweeps : List Nat) : HeartbeatCache :=
  sweeps.foldl cleanupProcessedItems c

/-- C7 counterexample: markSeen(x) at time 0, with the periodic sweep
last run at exactly the TTL boundary, still answers seen(x) = true at
time TTL + 1, a time strictly after the TTL has elapsed: isProcessed
never consults the clock, so the claim that seen yields false at every
time after the TTL is false on the code. -/
theorem claim_C7_counterexample :
    itemTtlMs < itemTtlMs + 1 ∧
    isProcessed
      (cleanupProcessedItems
        (markProcessed { processedItems := [] } "x" 0) itemTtlMs) "x" = true := by
  exact ⟨Nat.lt_succ_self _, rfl⟩

theorem markProcessed_key_val (c : HeartbeatCache) (x : String) (t0 : Nat) :
    (∀ e ∈ (markProcessed c x t0).processedItems, e.1 = x → e.2 = t0) ∧
    (∃ e ∈ (markProcessed c x t0).processedItems, e.1 = x) := by
  unfold markProcessed mapSet
  by_cases hmem : c.processedItems.any (fun e => e.1 == x) = true
  · simp only [hmem, if_pos]
    constructor
    · intro e he hx
      obtain ⟨u, hu, hue⟩ := List.mem_map.1 he
      by_cases hk : (u.1 == x) = true
      · rw [if_pos hk] at hue
        rw [← hue]
      · rw [if_neg hk] at hue
        subst hue
        exact absurd hx (by simpa using hk)
    · obtain ⟨u, hu, hk⟩ := List.any_eq_true.1 hmem
      refine ⟨(x, t0), List.mem_map.2 ⟨u, hu, by rw [if_pos hk]⟩, rfl⟩
  · simp only [hmem, Bool.false_eq_true, if_neg, not_false_iff]
    constructor
    · intro e he hx
      simp only [List.mem_append, List.mem_singleton] at he
      rcases he with he | he
      · exfalso
        rw [Bool.not_eq_true] at hmem
        have := List.any_eq_false.1 hmem e he
        simp [hx] at this
      · rw [he]
    · exact ⟨(x, t0), by simp⟩

theorem cleanup_key_val (d : HeartbeatCache) (x : String) (t0 ts : Nat)
    (hts : ts ≤ t0 + itemTtlMs)
    (h : (∀ e ∈ d.processedItems, e.1 = x → e.2 = t0) ∧
         (∃ e ∈ d.processedItems, e.1 = x)) :
    (∀ e ∈ (cleanupProcessedItems d ts).processedItems, e.1 = x → e.2 = t0) ∧
    (∃ e ∈ (cleanupProcessedItems d ts).processedItems, e.1 = x) := by
  obtain ⟨hall, e0, he0, hx0⟩ := h
  constructor
  · intro e he hx
    exact hall e (List.mem_of_mem_filter he) hx
  · refine ⟨e0, List.mem_filter.2 ⟨he0, ?_⟩, hx0⟩
    have hv : e0.2 = t0 := hall e0 he0 hx0
    simp only [hv, Bool.not_eq_true', decide_eq_false_iff_not]
    omega

theorem applySweeps_key_val (x : String) (t0 : Nat) (sweeps : List Nat)
    (hsweeps : ∀ ts ∈ sweeps, ts ≤ t0 + itemTtlMs) :
    ∀ (d : HeartbeatCache),
    (∀ e ∈ d.processedItems, e.1 = x → e.2 = t0) ∧
    (∃ e ∈ d.processedItems, e.1 = x) →
    (∀ e ∈ (applySweeps d sweeps).processedItems, e.1 = x → e.2 = t0) ∧
    (∃ e ∈ (applySweeps d sweeps).processedItems, e.1 = x) := by
  induction sweeps with
  | nil => intro d h; exact h
  | cons ts rest ih =>
      intro d h
      have h1 := cleanup_key_val d x t0 ts (hsweeps ts (List.mem_cons_self _ _)) h
      exact ih (fun u hu => hsweeps u (List.mem_cons_of_mem _ hu))
        (cleanupProcessedItems d ts) h1

/-- C7 (amended): after markSeen(x) at time t0, seen(x) yields true at
every observation point while all sweeps so far ran at times at most
t0 + TTL - in particular at every time up to and including the moment
the TTL elapses, and even after the TTL until the decoupled periodic
sweep next runs; seen(x) yields false only once a sweep runs at a time
strictly later than t0 + TTL, and from then on. -/
theorem claim_C7_ttl_cache (c : HeartbeatCache) (x : String) (t0 : Nat)
    (sweeps : List Nat) (hsweeps : ∀ ts ∈ sweeps, ts ≤ t0 + itemTtlMs)
    (tlate : Nat) (hlate : t0 + itemTtlMs < tlate) :
    isProcessed (applySweeps (markProcessed c x t0) sweeps) x = true ∧
    isProcessed
      (cleanupProcessedItems (applySweeps (markProcessed c x t0) sweeps) tlate)
      x = false := by
  obtain ⟨hall, e0, he0, hx0⟩ :=
    applySweeps_key_val x t0 sweeps hsweeps (markProcessed c x t0)
      (markProcessed_key_val c x t0)
  constructor
  · exact List.any_eq_true.2 ⟨e0, he0, by simp [hx0]⟩
  · apply List.any_eq_false.2
    intro e he
    simp only [Bool.not_eq_true, beq_eq_false_iff_ne, ne_eq]
    intro hx
    obtain ⟨hmem, hcond⟩ := List.mem_filter.1 he
    have hv : e.2 = t0 := hall e hmem hx
    rw [hv] at hcond
    simp only [Bool.not_eq_true', decide_eq_false_iff_not] at hcond
    omega

def sweepTimes : List Nat := [1800000, 3600000]

theorem claim_C7_ttl_cache_witness :
    isProcessed
      (applySweeps (markProcessed { processedItems := [] } "x" 0) sweepTimes)
      "x" = true ∧
    isProcessed
      (cleanupProcessedItems
        (applySweeps (markProcessed { processedItems := [] } "x" 0) sweepTimes)
        3600001) "x" = false :=
  claim_C7_ttl_cache { processedItems := [] } "x" 0 sweepTimes
    (by decide) 3600001 (by decide)

/-! Webhook server (src/webhook-server.ts): GitHub delivery
deduplication in handleGithubWebhook and the periodic delivery sweep. -/

/-- The delivery deduplication TTL: ten minutes in milliseconds. -/
def deduplicationTtlMs : Nat := 10 * 60 * 1000

/-- The recentDeliveries map: delivery id to receipt timestamp. -/
structure WebhookState where
  recentDeliveries : List (String × Nat)
deriving DecidableEq, Repr

/-- The HTTP response issued by handleGithubWebhook. -/
inductive HttpResponse where
  | unauthorized
  | duplicate
  | badRequest
  | accepted
deriving DecidableEq, Repr

/-- Mirrors handleGithubWebhook: verify the signature when a secret is
configured (the outcome of the crypto check is an input here), then
deduplicate by delivery id - a known id is answered 200 duplicate with no
dispatch, a fresh id is recorded immediately - then parse the body
(failure is answered 400), then answer 202 and dispatch to the handler.
Returns (new state, response, whether the event was dispatched). -/
def handleGithubWebhook (st : WebhookState)
    (secretConfigured sigPresent sigValid : Bool)
    (deliveryId : Option String) (bodyParses : Bool) (now : Nat) :
    WebhookState × HttpResponse × Bool :=
  if secretConfigured && !sigPresent then (st, .unauthorized, false)
  else if secretConfigured && !sigValid then (st, .unauthorized, false)
  else
    match deliveryId with
    | some d =>
        if st.recentDeliveries.any (fun e => e.1 == d) then
          (st, .duplicate, false)
        else
          let st1 : WebhookState :=
            { recentDeliveries := mapSet st.recentDeliveries d now }
          if bodyParses then (st1, .accepted, true)
          else (st1, .badRequest, false)
    | none =>
        if bodyParses then (st, .accepted, true)
        else (st, .badRequest, false)

/-- Mirrors cleanupDeliveries: drop ids received strictly more than the
TTL ago. -/
def cleanupDeliveries (st : WebhookState) (now : Nat) : WebhookState :=
  { recentDeliveries :=
      st.recentDeliveries.filter (fun e => !(now - e.2 > deduplicationTtlMs)) }

/-- C10: the GitHub webhook handler records a delivery id before parsing
the body: a request with a fresh delivery id whose body is invalid JSON
is answered 400, is not dispatched, and still consumes the id; a retry
with the same delivery id within the TTL (here with an intervening
cleanup sweep) is answered as a duplicate, leaves the state unchanged,
and is never dispatched to the handler, even though the original
delivery was never processed. -/
theorem claim_C10_dedup_before_parse (st : WebhookState) (d : String)
    (t1 t2 : Nat) (sc sp sv b2 : Bool)
    (hsig : sc = false ∨ (sp = true ∧ sv = true))
    (hfresh : st.recentDeliveries.any (fun e => e.1 == d) = false)
    (ht : t2 - t1 ≤ deduplicationTtlMs) :
    (handleGithubWebhook st sc sp sv (some d) false t1).2.1 =
      HttpResponse.badRequest ∧
    (handleGithubWebhook st sc sp sv (some d) false t1).2.2 = false ∧
    (handleGithubWebhook st sc sp sv (some d) false t1).1.recentDeliveries =
      st.recentDeliveries ++ [(d, t1)] ∧
    (handleGithubWebhook
        (cleanupDeliveries (handleGithubWebhook st sc sp sv (some d) false t1).1 t2)
        sc sp sv (some d) b2 t2).2.1 = HttpResponse.duplicate ∧
    (handleGithubWebhook
        (cleanupDeliveries (handleGithubWebhook st sc sp sv (some d) false t1).1 t2)
        sc sp sv (some d) b2 t2).2.2 = false ∧
    (handleGithubWebhook
        (cleanupDeliveries (handleGithubWebhook st sc sp sv (some d) false t1).1 t2)
        sc sp sv (some d) b2 t2).1 =
      cleanupDeliveries (handleGithubWebhook st sc sp sv (some d) false t1).1 t2 := by
  have hsig1 : (sc && !sp) = false := by
    rcases hsig with rfl | ⟨rfl, rfl⟩ <;> simp
  have hsig2 : (sc && !sv) = false := by
    rcases hsig with rfl | ⟨rfl, rfl⟩ <;> simp
  have hmapset : mapSet st.recentDeliveries d t1 = st.recentDeliveries ++ [(d, t1)] := by
    unfold mapSet
    rw [if_neg (by simp [hfresh])]
  have h1 : handleGithubWebhook st sc sp sv (some d) false t1 =
      ({ recentDeliveries := st.recentDeliveries ++ [(d, t1)] },
        HttpResponse.badRequest, false) := by
    unfold handleGithubWebhook
    rw [if_neg (by simp [hsig1]), if_neg (by simp [hsig2])]
    simp only [hfresh, Bool.false_eq_true, if_neg, not_false_iff, hmapset]
  have hdup : ((cleanupDeliveries
        (handleGithubWebhook st sc sp sv (some d) false t1).1 t2).recentDeliveries.any
        (fun e => e.1 == d)) = true := by
    rw [h1]
    apply List.any_eq_true.2
    refine ⟨(d, t1), ?_, by simp⟩
    apply List.mem_filter.2
    refine ⟨by simp, ?_⟩
    simp only [Bool.not_eq_true', decide_eq_false_iff_not]
    omega
  have h2 : ∀ st2 : WebhookState,
      (st2.recentDeliveries.any (fun e => e.1 == d)) = true →
      handleGithubWebhook st2 sc sp sv (some d) b2 t2 =
        (st2, HttpResponse.duplicate, false) := by
    intro st2 hd2
    unfold handleGithubWebhook
    rw [if_neg (by simp [hsig1]), if_neg (by simp [hsig2])]
    simp [hd2]
  refine ⟨by rw [h1], by rw [h1], by rw [h1], ?_, ?_, ?_⟩ <;> rw [h2 _ hdup]

theorem claim_C10_dedup_before_parse_witness :
    (handleGithubWebhook { recentDeliveries := [] } false true true
        (some "dl1") false 0).2.1 = HttpResponse.badRequest ∧
    (handleGithubWebhook { recentDeliveries := [] } false true true
        (some "dl1") false 0).2.2 = false ∧
    (handleGithubWebhook { recentDeliveries := [] } false true true
        (some "dl1") false 0).1.recentDeliveries =
      ({ recentDeliveries := [] } : WebhookState).recentDeliveries ++ [("dl1", 0)] ∧
    (handleGithubWebhook
        (cleanupDeliveries (handleGithubWebhook { recentDeliveries := [] }
          false true true (some "dl1") false 0).1 300000)
        false true true (some "dl1") true 300000).2.1 = HttpResponse.duplicate ∧
    (handleGithubWebhook
        (cleanupDeliveries (handleGithubWebhook { recentDeliveries := [] }
          false true true (some "dl1") false 0).1 300000)
        false true true (some "dl1") true 300000).2.2 = false ∧
    (handleGithubWebhook
        (cleanupDeliveries (handleGithubWebhook { recentDeliveries := [] }
          false true true (some "dl1") false 0).1 300000)
        false true true (some "dl1") true 300000).1 =
      cleanupDeliveries (handleGithubWebhook { recentDeliveries := [] }
        false true true (some "dl1") false 0).1 300000 :=
  claim_C10_dedup_before_parse { recentDeliveries := [] } "dl1" 0 300000
    false true true true (Or.inl rfl) rfl (by decide)
